import Mathlib

/-!
Verification development for the synchronization core of the `reth` fork under
review: the chain orchestrator (`crates/engine/tree/src/chain.rs`), the
persistence actor (`crates/engine/tree/src/persistence.rs`), the header/body
request scheduler (`crates/net/network/src/fetch.rs`) and the transaction
fetch scheduler (`crates/net/network/src/transactions/fetcher.rs`).

The Rust state is embedded shallowly: hashes and peer ids become `Nat`, the
`schnellru::LruMap`s become association lists ordered most-recently-used
first, and reth's `LruCache` (a bounded linked hash set) becomes a list
ordered oldest-first together with its capacity.  Every function below is a
direct translation of the correspondingly named Rust function; stubbed Rust
code (`todo!`, `unimplemented!`, `expect`) is translated to explicit
`panicked` outcome constructors.
-/

set_option autoImplicit false

namespace Spec2Proof

abbrev TxHash := Nat
abbrev PeerId := Nat

/-- Lookup in an association list (first entry with the given key wins). -/
def alookup {α : Type} : List (Nat × α) → Nat → Option α
  | [], _ => none
  | (k, v) :: rest, key => if k = key then some v else alookup rest key

/-- Remove every entry with the given key from an association list. -/
def aerase {α : Type} : List (Nat × α) → Nat → List (Nat × α)
  | [], _ => []
  | (k, v) :: rest, key =>
    if k = key then aerase rest key else (k, v) :: aerase rest key

/-- Replace, in place, the value of every entry with the given key
(a write through a mutable reference obtained from `peek_mut`). -/
def aset {α : Type} : List (Nat × α) → Nat → α → List (Nat × α)
  | [], _, _ => []
  | (k, v) :: rest, key, newV =>
    if k = key then (key, newV) :: aset rest key newV
    else (k, v) :: aset rest key newV

/-- Write an entry at the most-recently-used position, removing any previous
entry for the key (the net effect of `LruMap::get`/`get_or_insert` followed by
a write through the returned mutable reference). -/
def apromote {α : Type} (l : List (Nat × α)) (key : Nat) (v : α) : List (Nat × α) :=
  (key, v) :: aerase l key

/-- The keys of an association list, in order. -/
def akeys {α : Type} (l : List (Nat × α)) : List Nat := l.map (·.1)

/-- Modelled from the spec: reth's bounded LRU cache (`crate::cache::LruCache`,
whose implementation file `net/network/src/cache.rs` is not among the provided
sources).  Per spec sections 3 and 4.4 it is a bounded set with
least-recently-used eviction: the backing list here is ordered oldest first,
new elements are appended, and an insertion that overflows the capacity evicts
the oldest element. Inserting an element that is already present leaves the
cache unchanged. -/
structure LruCache where
  limit : Nat
  inner : List Nat
deriving Repr, DecidableEq

/-- Fresh empty cache of the given capacity. -/
def LruCache.new (limit : Nat) : LruCache := ⟨limit, []⟩

/-- Membership test (`LruCache::contains`). -/
def LruCache.containsHash (c : LruCache) (x : Nat) : Bool := c.inner.contains x

/-- `LruCache::insert_and_get_evicted`: returns the updated cache, whether the
element was newly inserted, and the evicted least-recently-used element if the
insertion overflowed the capacity. -/
def LruCache.insertAndGetEvicted (c : LruCache) (x : Nat) : LruCache × Bool × Option Nat :=
  if c.inner.contains x then (c, false, none)
  else if c.limit < c.inner.length + 1 then
    ({ c with inner := (c.inner ++ [x]).tail }, true, (c.inner ++ [x]).head?)
  else
    ({ c with inner := c.inner ++ [x] }, true, none)

/-- `LruCache::insert`, discarding the eviction information. -/
def LruCache.insertHash (c : LruCache) (x : Nat) : LruCache :=
  (c.insertAndGetEvicted x).1

/-- `LruCache::remove`: returns the updated cache and whether the element was
present. -/
def LruCache.removeHash (c : LruCache) (x : Nat) : LruCache × Bool :=
  if c.inner.contains x then ({ c with inner := c.inner.erase x }, true)
  else (c, false)

/-! ### Constants of the transaction fetcher (`transactions/fetcher.rs`) -/

/-- Maximum concurrent `GetPooledTransactions` requests per peer. -/
def MAX_CONCURRENT_TX_REQUESTS_PER_PEER : Nat := 1

/-- Maximum request retries per transaction hash. -/
def MAX_REQUEST_RETRIES_PER_TX_HASH : Nat := 2

/-- Marginal on fallback peers. -/
def MARGINAL_FALLBACK_PEERS_PER_TX : Nat := 1

/-- How many peers are tracked for each missing transaction. -/
def MAX_ALTERNATIVE_PEERS_PER_TX : Nat :=
  MAX_REQUEST_RETRIES_PER_TX_HASH + MARGINAL_FALLBACK_PEERS_PER_TX

/-- Maximum concurrent `GetPooledTransactions` requests (global cap). -/
def MAX_CONCURRENT_TX_REQUESTS : Nat := 10000

/-- Recommended soft limit for hashes in a `GetPooledTransactions` message. -/
def GET_POOLED_TRANSACTION_SOFT_LIMIT_NUM_HASHES : Nat := 256

/-- Cache limit of transactions waiting for an idle peer. -/
def MAX_CAPACITY_BUFFERED_HASHES : Nat :=
  100 * GET_POOLED_TRANSACTION_SOFT_LIMIT_NUM_HASHES

/-- Modelled from the spec: the fixed byte budget of a full
`PooledTransactions` response (the constant `MAX_FULL_TRANSACTIONS_PACKET_SIZE`
is defined in `transactions/mod.rs`, which is not among the provided sources;
the spec only calls it a fixed response-size budget `L`).  The value is fixed
at 100 KiB; none of the theorems below depend on the exact value. -/
def MAX_FULL_TRANSACTIONS_PACKET_SIZE : Nat := 100 * 1024

/-! ### The transaction fetcher state -/

/-- State of `TransactionFetcher`.  `active_peers` and the two metadata maps
are `schnellru::LruMap`s, embedded as association lists ordered
most-recently-used first; `inflight_requests` keeps, per pending request, the
peer and the exact hash set requested. -/
structure TransactionFetcher where
  active_peers : List (PeerId × Nat)
  inflight_requests : List (PeerId × List TxHash)
  buffered_hashes : LruCache
  unknown_hashes : List (TxHash × (Nat × LruCache))
  eth68_meta : List (TxHash × Nat)
deriving Repr, DecidableEq

/-- `TransactionFetcher::default`. -/
def TransactionFetcher.init : TransactionFetcher :=
  { active_peers := []
    inflight_requests := []
    buffered_hashes := LruCache.new MAX_CAPACITY_BUFFERED_HASHES
    unknown_hashes := []
    eth68_meta := [] }

/-- `TransactionFetcher::remove_from_unknown_hashes`: drops every given hash
from `unknown_hashes` and `eth68_meta`. -/
def remove_from_unknown_hashes (s : TransactionFetcher) (hashes : List TxHash) :
    TransactionFetcher :=
  hashes.foldl
    (fun s h =>
      { s with
        unknown_hashes := aerase s.unknown_hashes h
        eth68_meta := aerase s.eth68_meta h })
    s

/-- `TransactionFetcher::include_eth68_hash`: returns whether the hash fits in
the remaining response budget, together with the updated accumulated size
(only updated when the hash fits; a hash with no size metadata never fits). -/
def include_eth68_hash (s : TransactionFetcher) (accSizeResponse : Nat)
    (eth68Hash : TxHash) : Bool × Nat :=
  match alookup s.eth68_meta eth68Hash with
  | some size =>
    let nextAccSize := accSizeResponse + size
    if nextAccSize ≤ MAX_FULL_TRANSACTIONS_PACKET_SIZE then (true, nextAccSize)
    else (false, accSizeResponse)
  | none => (false, accSizeResponse)

/-- One candidate step of `TransactionFetcher::fill_request_for_peer`: look the
buffered hash up in `unknown_hashes` (which moves the entry to the
most-recently-used position) and push it onto the request if the peer could be
removed from its fallback-peer set. -/
def fill_step_push (s : TransactionFetcher) (peerId : PeerId)
    (hashes : List TxHash) (h : TxHash) : TransactionFetcher × List TxHash :=
  match alookup s.unknown_hashes h with
  | none => (s, hashes)
  | some (retries, fallbackPeers) =>
    let (fallbackPeers, removed) := fallbackPeers.removeHash peerId
    let s := { s with unknown_hashes := apromote s.unknown_hashes h (retries, fallbackPeers) }
    if removed then (s, hashes ++ [h]) else (s, hashes)

/-- The loop of `TransactionFetcher::fill_request_for_peer` over the buffered
hashes (oldest first).  For an eth68 request the budget check runs first and a
buffered hash with size metadata that does not fit is skipped; for an eth66
request the loop stops at the soft hash-count limit. -/
def fill_loop (peerId : PeerId) :
    List TxHash → TransactionFetcher → List TxHash → Option Nat →
      TransactionFetcher × List TxHash × Option Nat
  | [], s, hashes, acc => (s, hashes, acc)
  | h :: rest, s, hashes, acc =>
    match acc with
    | some a =>
      if MAX_FULL_TRANSACTIONS_PACKET_SIZE ≤ a then (s, hashes, acc)
      else
        match alookup s.eth68_meta h with
        | some size =>
          let s := { s with eth68_meta := apromote s.eth68_meta h size }
          let (ok, a1) := include_eth68_hash s a h
          if ok then
            let (s, hashes) := fill_step_push s peerId hashes h
            fill_loop peerId rest s hashes (some a1)
          else
            fill_loop peerId rest s hashes (some a1)
        | none =>
          let (s, hashes) := fill_step_push s peerId hashes h
          fill_loop peerId rest s hashes (some a)
    | none =>
      if GET_POOLED_TRANSACTION_SOFT_LIMIT_NUM_HASHES ≤ hashes.length then
        (s, hashes, acc)
      else
        let (s, hashes) := fill_step_push s peerId hashes h
        fill_loop peerId rest s hashes none

/-- `TransactionFetcher::fill_request_for_peer`: walks the buffered hashes and
appends those for which the peer was a registered fallback, then removes every
hash of the final request from the buffer. -/
def fill_request_for_peer (s : TransactionFetcher) (hashes : List TxHash)
    (peerId : PeerId) (accEth68Size : Option Nat) :
    TransactionFetcher × List TxHash :=
  let r := fill_loop peerId s.buffered_hashes.inner s hashes accEth68Size
  let s := r.1
  let hashes := r.2.1
  let buffered := hashes.foldl (fun c h => (c.removeHash h).1) s.buffered_hashes
  ({ s with buffered_hashes := buffered }, hashes)

/-- The `retain` pass of `TransactionFetcher::pack_hashes_eth68`: greedily keep
hashes while the accumulated response size stays within the budget, collecting
the hashes that do not fit as surplus (in encounter order). -/
def pack_retain_eth68 (s : TransactionFetcher) :
    List TxHash → Nat → List TxHash × List TxHash × Nat
  | [], acc => ([], [], acc)
  | h :: rest, acc =>
    let (ok, acc1) := include_eth68_hash s acc h
    let r := pack_retain_eth68 s rest acc1
    if ok then (h :: r.1, r.2.1, r.2.2) else (r.1, h :: r.2.1, r.2.2)

/-- `TransactionFetcher::pack_hashes_eth68`: returns the updated fetcher, the
hashes kept in the request, and the surplus hashes.  When the accumulated size
leaves headroom, the request is topped up from the buffer. -/
def pack_hashes_eth68 (s : TransactionFetcher) (hashes : List TxHash)
    (peerId : PeerId) : TransactionFetcher × List TxHash × List TxHash :=
  let r := pack_retain_eth68 s hashes 0
  let kept := r.1
  let surplus := r.2.1
  let acc := r.2.2
  if acc < MAX_FULL_TRANSACTIONS_PACKET_SIZE then
    let f := fill_request_for_peer s kept peerId (some acc)
    (f.1, f.2, surplus)
  else
    (s, kept, surplus)

/-- `TransactionFetcher::pack_hashes_eth66`: below the soft hash-count limit
the request is topped up from the buffer and there is no surplus; otherwise
the list is split at the limit. -/
def pack_hashes_eth66 (s : TransactionFetcher) (hashes : List TxHash)
    (peerId : PeerId) : TransactionFetcher × List TxHash × List TxHash :=
  if hashes.length < GET_POOLED_TRANSACTION_SOFT_LIMIT_NUM_HASHES then
    let f := fill_request_for_peer s hashes peerId none
    (f.1, f.2, [])
  else
    (s, hashes.take GET_POOLED_TRANSACTION_SOFT_LIMIT_NUM_HASHES,
      hashes.drop GET_POOLED_TRANSACTION_SOFT_LIMIT_NUM_HASHES)

/-- `TransactionFetcher::pack_hashes`: dispatches on whether the first hash
carries eth68 size metadata (the lookup moves that entry to the
most-recently-used position). -/
def pack_hashes (s : TransactionFetcher) (hashes : List TxHash)
    (peerId : PeerId) : TransactionFetcher × List TxHash × List TxHash :=
  match hashes.head? with
  | none => (s, hashes, [])
  | some h =>
    match alookup s.eth68_meta h with
    | some size =>
      pack_hashes_eth68 { s with eth68_meta := apromote s.eth68_meta h size }
        hashes peerId
    | none => pack_hashes_eth66 s hashes peerId

/-- The insertion step at the end of each `TransactionFetcher::buffer_hashes`
iteration: insert the hash into `buffered_hashes`, and if that evicted the
least-recently-used buffered hash, purge the evicted hash from
`unknown_hashes` and `eth68_meta`. -/
def buffered_insert_purge (s : TransactionFetcher) (h : TxHash) :
    TransactionFetcher :=
  let r := s.buffered_hashes.insertAndGetEvicted h
  let s := { s with buffered_hashes := r.1 }
  match r.2.2 with
  | some evictedHash =>
    { s with
      unknown_hashes := aerase s.unknown_hashes evictedHash
      eth68_meta := aerase s.eth68_meta evictedHash }
  | none => s

/-- The loop of `TransactionFetcher::buffer_hashes`.  A hash with no
`unknown_hashes` entry returns from the whole function at once (so the hashes
accumulated in `maxRetried` are not removed).  With a fallback peer the peer
is registered; without one the retry count decides: at the retry limit the
hash is set aside for removal, otherwise the count is incremented and the
hash is buffered.  After the last hash the set-aside hashes are dropped from
tracking. -/
def buffer_loop (fallbackPeer : Option PeerId) :
    List TxHash → TransactionFetcher → List TxHash → TransactionFetcher
  | [], s, maxRetried => remove_from_unknown_hashes s maxRetried
  | h :: rest, s, maxRetried =>
    match alookup s.unknown_hashes h with
    | none => s
    | some (retries, fallbackPeers) =>
      match fallbackPeer with
      | some p =>
        let fallbackPeers := fallbackPeers.insertHash p
        let s := { s with unknown_hashes := apromote s.unknown_hashes h (retries, fallbackPeers) }
        buffer_loop fallbackPeer rest (buffered_insert_purge s h) maxRetried
      | none =>
        if MAX_REQUEST_RETRIES_PER_TX_HASH ≤ retries then
          let s := { s with unknown_hashes := apromote s.unknown_hashes h (retries, fallbackPeers) }
          buffer_loop fallbackPeer rest s (h :: maxRetried)
        else
          let s := { s with unknown_hashes := apromote s.unknown_hashes h (retries + 1, fallbackPeers) }
          buffer_loop fallbackPeer rest (buffered_insert_purge s h) maxRetried

/-- `TransactionFetcher::buffer_hashes`. -/
def buffer_hashes (s : TransactionFetcher) (hashes : List TxHash)
    (fallbackPeer : Option PeerId) : TransactionFetcher :=
  buffer_loop fallbackPeer hashes s []

/-- `TransactionFetcher::buffer_hashes_for_retry`. -/
def buffer_hashes_for_retry (s : TransactionFetcher) (hashes : List TxHash) :
    TransactionFetcher :=
  buffer_hashes s hashes none

/-- The `retain` loop of `TransactionFetcher::filter_unseen_hashes`.  A
tracked hash that is buffered is removed from the buffer and kept; a tracked
hash in flight registers the announcing peer as fallback and is dropped,
after first removing from the fallback set exactly those peers for which
`is_session_active` returns `true` (the source pushes a peer onto its
`ended_sessions` list when `is_session_active(peer_id)` holds and then
removes that list, although its comment says it means to remove the ended
sessions).  An untracked hash is freshly inserted and kept. -/
def filter_unseen_loop (peerId : PeerId) (isSessionActive : PeerId → Bool) :
    List TxHash → TransactionFetcher → TransactionFetcher × List TxHash
  | [], s => (s, [])
  | h :: rest, s =>
    match alookup s.unknown_hashes h with
    | some (retries, backups) =>
      let r := s.buffered_hashes.removeHash h
      let s := { s with buffered_hashes := r.1 }
      if r.2 then
        let t := filter_unseen_loop peerId isSessionActive rest s
        (t.1, h :: t.2)
      else
        let endedSessions := backups.inner.filter isSessionActive
        let backups := endedSessions.foldl (fun c p => (c.removeHash p).1) backups
        let backups := backups.insertHash peerId
        let s := { s with unknown_hashes := aset s.unknown_hashes h (retries, backups) }
        filter_unseen_loop peerId isSessionActive rest s
    | none =>
      let s :=
        { s with
          unknown_hashes :=
            (h, (0, LruCache.new MAX_ALTERNATIVE_PEERS_PER_TX)) :: s.unknown_hashes }
      let t := filter_unseen_loop peerId isSessionActive rest s
      (t.1, h :: t.2)

/-- `TransactionFetcher::filter_unseen_hashes`: returns the updated fetcher
and the retained announcement list. -/
def filter_unseen_hashes (s : TransactionFetcher) (newAnnouncedHashes : List TxHash)
    (peerId : PeerId) (isSessionActive : PeerId → Bool) :
    TransactionFetcher × List TxHash :=
  filter_unseen_loop peerId isSessionActive newAnnouncedHashes s

/-- `TransactionFetcher::request_transactions_from_peer`.  `sendOk` stands for
the outcome of `peer.request_tx.try_send`: on failure the requested hashes
are stripped from tracking and handed back; on success the request future is
registered.  Returns the updated fetcher and `some hashes` exactly when the
request was not dispatched. -/
def request_transactions_from_peer (s : TransactionFetcher)
    (newAnnouncedHashes : List TxHash) (peerId : PeerId) (sendOk : Bool) :
    TransactionFetcher × Option (List TxHash) :=
  if MAX_CONCURRENT_TX_REQUESTS ≤ s.active_peers.length then
    (s, some newAnnouncedHashes)
  else
    let inflightCount := (alookup s.active_peers peerId).getD 0
    if MAX_CONCURRENT_TX_REQUESTS_PER_PEER ≤ inflightCount then
      ({ s with active_peers := apromote s.active_peers peerId inflightCount },
        some newAnnouncedHashes)
    else
      let s := { s with active_peers := apromote s.active_peers peerId (inflightCount + 1) }
      if sendOk then
        ({ s with inflight_requests := s.inflight_requests ++ [(peerId, newAnnouncedHashes)] },
          none)
      else
        (remove_from_unknown_hashes s newAnnouncedHashes, some newAnnouncedHashes)

/-- `TransactionFetcher::update_peer_activity`: decrement the peer's in-flight
count, removing the entry when it reaches zero. -/
def update_peer_activity (s : TransactionFetcher) (peerId : PeerId) :
    TransactionFetcher :=
  match alookup s.active_peers peerId with
  | none => s
  | some inflightCount =>
    if inflightCount ≤ 1 then
      { s with active_peers := aerase s.active_peers peerId }
    else
      { s with active_peers := apromote s.active_peers peerId (inflightCount - 1) }

/-- Remove the first in-flight request of the given peer, returning its hash
set and the remaining requests. -/
def take_inflight : List (PeerId × List TxHash) → PeerId →
    Option (List TxHash × List (PeerId × List TxHash))
  | [], _ => none
  | (p, hs) :: rest, peerId =>
    if p = peerId then some (hs, rest)
    else
      match take_inflight rest peerId with
      | some (hs1, rest1) => some (hs1, (p, hs) :: rest1)
      | none => none

/-- The `Stream::poll_next` arm of `TransactionFetcher` for a resolved request
of `peerId`: the peer activity is updated, the delivered hashes are fully
untracked, and the undelivered requested hashes are re-buffered with no
fallback peer.  A request error or a closed channel is the `delivered = []`
case. -/
def on_resolved_request (s : TransactionFetcher) (peerId : PeerId)
    (delivered : List TxHash) : TransactionFetcher :=
  match take_inflight s.inflight_requests peerId with
  | none => s
  | some (requestedHashes, remaining) =>
    let s := { s with inflight_requests := remaining }
    let s := update_peer_activity s peerId
    let received := requestedHashes.filter (fun h => delivered.contains h)
    let leftOver := requestedHashes.filter (fun h => ¬ delivered.contains h)
    let s := remove_from_unknown_hashes s received
    buffer_hashes_for_retry s leftOver

/-- The operations the surrounding transactions manager performs on a
`TransactionFetcher` (the active-session set of `filter_unseen_hashes` is
given as the list of live peers). -/
inductive FetcherOp where
  | filterUnseen (hashes : List TxHash) (peerId : PeerId) (activeSessions : List PeerId)
  | packHashesOp (hashes : List TxHash) (peerId : PeerId)
  | bufferHashesOp (hashes : List TxHash) (fallbackPeer : Option PeerId)
  | request (hashes : List TxHash) (peerId : PeerId) (sendOk : Bool)
  | resolved (peerId : PeerId) (delivered : List TxHash)
  | fullBroadcast (hashes : List TxHash)
deriving Repr, DecidableEq

/-- Apply one fetcher operation to the state. -/
def applyFetcherOp (s : TransactionFetcher) : FetcherOp → TransactionFetcher
  | .filterUnseen hashes p act =>
    (filter_unseen_hashes s hashes p (fun q => act.contains q)).1
  | .packHashesOp hashes p => (pack_hashes s hashes p).1
  | .bufferHashesOp hashes fb => buffer_hashes s hashes fb
  | .request hashes p ok => (request_transactions_from_peer s hashes p ok).1
  | .resolved p d => on_resolved_request s p d
  | .fullBroadcast hashes => remove_from_unknown_hashes s hashes

/-! ### The header/body request scheduler (`fetch.rs`) -/

/-- `PeerState` of the header/body scheduler. -/
inductive PeerState where
  | idle
  | getBlockHeaders
  | getBlockBodies
  | closing
deriving Repr, DecidableEq

/-- `PeerState::is_idle`. -/
def PeerState.is_idle : PeerState → Bool
  | .idle => true
  | _ => false

/-- `PeerState::on_request_finished`: returns the new state and whether the
peer is ready for another request (a `Closing` peer stays closing). -/
def PeerState.on_request_finished : PeerState → PeerState × Bool
  | .closing => (.closing, false)
  | _ => (.idle, true)

/-- `DownloadRequest` of the header/body scheduler.  The payload of a headers
request is abstracted to a single number, a bodies request carries the
requested block hashes; the one-shot reply channels are not part of the
state. -/
inductive DownloadRequest where
  | getBlockHeaders (request : Nat)
  | getBlockBodies (request : List Nat)
deriving Repr, DecidableEq

/-- `DownloadRequest::peer_state`. -/
def DownloadRequest.peer_state : DownloadRequest → PeerState
  | .getBlockHeaders _ => .getBlockHeaders
  | .getBlockBodies _ => .getBlockBodies

/-- State of `StateFetcher`.  The two in-flight maps are `HashMap`s keyed by
peer id; `peers` is the peer map (embedded as an association list whose order
stands for the map's iteration order); `queued_requests` is the FIFO of
pending download requests. -/
structure StateFetcher where
  inflight_headers_requests : List (PeerId × Nat)
  inflight_bodies_requests : List (PeerId × List Nat)
  peers : List (PeerId × PeerState)
  queued_requests : List DownloadRequest
deriving Repr, DecidableEq

/-- `StateFetcher::default`. -/
def StateFetcher.init : StateFetcher :=
  { inflight_headers_requests := []
    inflight_bodies_requests := []
    peers := []
    queued_requests := [] }

/-- `StateFetcher::new_connected_peer` (the new peer starts `Idle`). -/
def new_connected_peer (s : StateFetcher) (peerId : PeerId) : StateFetcher :=
  { s with peers := apromote s.peers peerId .idle }

/-- `StateFetcher::on_session_closed`: removes the peer and its in-flight
requests (their reply channels are failed with `ConnectionDropped`, which the
state does not record). -/
def on_session_closed (s : StateFetcher) (peerId : PeerId) : StateFetcher :=
  { s with
    peers := aerase s.peers peerId
    inflight_headers_requests := aerase s.inflight_headers_requests peerId
    inflight_bodies_requests := aerase s.inflight_bodies_requests peerId }

/-- `StateFetcher::on_pending_disconnect`. -/
def on_pending_disconnect (s : StateFetcher) (peerId : PeerId) : StateFetcher :=
  match alookup s.peers peerId with
  | some _ => { s with peers := aset s.peers peerId .closing }
  | none => s

/-- `StateFetcher::next_peer`: the first idle peer in iteration order. -/
def next_peer (s : StateFetcher) : Option PeerId :=
  (s.peers.find? (fun e => e.2.is_idle)).map (·.1)

/-- The outbound action produced when a request is handed to a peer.  The
headers arm of `prepare_block_request` is `unimplemented!("unify start
types")` in the source: the state mutations before it still happen, and the
panic is recorded as an outcome. -/
inductive BlockRequestAction where
  | getBlockBodies (request : List Nat)
  | panicUnimplemented
deriving Repr, DecidableEq

/-- `StateFetcher::prepare_block_request`: marks the peer busy with the
request kind, registers the in-flight request, and produces the outbound
request (the headers arm aborts with `unimplemented!` after registering). -/
def prepare_block_request (s : StateFetcher) (peerId : PeerId)
    (req : DownloadRequest) : StateFetcher × BlockRequestAction :=
  let s :=
    match alookup s.peers peerId with
    | some _ => { s with peers := aset s.peers peerId req.peer_state }
    | none => s
  match req with
  | .getBlockHeaders request =>
    ({ s with inflight_headers_requests := apromote s.inflight_headers_requests peerId request },
      .panicUnimplemented)
  | .getBlockBodies request =>
    ({ s with inflight_bodies_requests := apromote s.inflight_bodies_requests peerId request },
      .getBlockBodies request)

/-- `StateFetcher::poll_action`: with a non-empty queue and an idle peer, pop
the front request and dispatch it to the first idle peer. -/
def poll_action (s : StateFetcher) :
    StateFetcher × Option (PeerId × BlockRequestAction) :=
  if s.queued_requests.isEmpty then (s, none)
  else
    match next_peer s with
    | none => (s, none)
    | some peerId =>
      match s.queued_requests with
      | [] => (s, none)
      | req :: rest =>
        let r := prepare_block_request { s with queued_requests := rest } peerId req
        (r.1, some (peerId, r.2))

/-- `StateFetcher::followup_request`: pop the next queued request for a peer
that just went idle. -/
def followup_request (s : StateFetcher) (peerId : PeerId) :
    StateFetcher × Option (PeerId × BlockRequestAction) :=
  match s.queued_requests with
  | [] => (s, none)
  | req :: rest =>
    let r := prepare_block_request { s with queued_requests := rest } peerId req
    (r.1, some (peerId, r.2))

/-- `StateFetcher::on_block_headers_response`: fulfil and drop the in-flight
entry, return the peer to `Idle` unless it is closing, and greedily hand it
the next queued request. -/
def on_block_headers_response (s : StateFetcher) (peerId : PeerId) :
    StateFetcher × Option (PeerId × BlockRequestAction) :=
  let s := { s with inflight_headers_requests := aerase s.inflight_headers_requests peerId }
  match alookup s.peers peerId with
  | none => (s, none)
  | some st =>
    let r := st.on_request_finished
    let s := { s with peers := aset s.peers peerId r.1 }
    if r.2 then followup_request s peerId else (s, none)

/-- `StateFetcher::on_block_bodies_response`; see
`on_block_headers_response`. -/
def on_block_bodies_response (s : StateFetcher) (peerId : PeerId) :
    StateFetcher × Option (PeerId × BlockRequestAction) :=
  let s := { s with inflight_bodies_requests := aerase s.inflight_bodies_requests peerId }
  match alookup s.peers peerId with
  | none => (s, none)
  | some st =>
    let r := st.on_request_finished
    let s := { s with peers := aset s.peers peerId r.1 }
    if r.2 then followup_request s peerId else (s, none)

/-- `StateFetcher::on_download_request` as written in the source: the request
is matched on and discarded (both arms are empty), no action is produced and
the queue is left untouched. -/
def on_download_request (s : StateFetcher) (request : DownloadRequest) :
    StateFetcher × Option (PeerId × BlockRequestAction) :=
  match request with
  | .getBlockHeaders _ => (s, none)
  | .getBlockBodies _ => (s, none)

/-- Number of in-flight requests the scheduler holds for a peer. -/
def inflightCount (s : StateFetcher) (p : PeerId) : Nat :=
  (if (alookup s.inflight_headers_requests p).isSome then 1 else 0) +
    (if (alookup s.inflight_bodies_requests p).isSome then 1 else 0)

/-- The reachable states of the header/body scheduler.  Responses are only
delivered for requests actually in flight (they arrive through the one-shot
reply channel registered at dispatch; spec section 4.3 speaks of fulfilling
"the waiting reply channel"), and a session is only established for a peer
not currently in the peer set.  The `enqueue` step is modelled from the spec
(section 4.3: `enqueue(request)` appends to the FIFO of pending download
requests), since `on_download_request` in the source discards its request. -/
inductive Reach : StateFetcher → Prop where
  | init : Reach .init
  | newPeer (s : StateFetcher) (p : PeerId) : Reach s →
      alookup s.peers p = none → Reach (new_connected_peer s p)
  | sessionClosed (s : StateFetcher) (p : PeerId) : Reach s →
      Reach (on_session_closed s p)
  | pendingDisconnect (s : StateFetcher) (p : PeerId) : Reach s →
      Reach (on_pending_disconnect s p)
  | download (s : StateFetcher) (r : DownloadRequest) : Reach s →
      Reach (on_download_request s r).1
  | enqueue (s : StateFetcher) (r : DownloadRequest) : Reach s →
      Reach { s with queued_requests := s.queued_requests ++ [r] }
  | pollAction (s : StateFetcher) : Reach s → Reach (poll_action s).1
  | headersResponse (s : StateFetcher) (p : PeerId) : Reach s →
      (alookup s.inflight_headers_requests p).isSome →
      Reach (on_block_headers_response s p).1
  | bodiesResponse (s : StateFetcher) (p : PeerId) : Reach s →
      (alookup s.inflight_bodies_requests p).isSome →
      Reach (on_block_bodies_response s p).1

/-! ### The chain orchestrator (`chain.rs`) -/

/-- One response of `PipelineHandler::poll`; a poll of an exhausted script
stands for `Poll::Pending`. -/
inductive PipelinePollResp where
  | idle
  | started (target : Nat)
  | finishedOk (outcome : Nat)
  | finishedErr (err : Nat)
deriving Repr, DecidableEq

/-- `ChainEvent` returned by the orchestrator. -/
inductive ChainEvent where
  | pipelineStarted
  | pipelineFinished
  | fatalError
deriving Repr, DecidableEq

/-- `FromOrchestrator` events sent to the chain handler. -/
inductive FromOrchestrator where
  | pipelineFinished
  | pipelineStarted
deriving Repr, DecidableEq

/-- The observable outcome of one `ChainOrchestrator::poll_next_event` call:
the returned event (`none` stands for `Poll::Pending`), the `on_event`
notifications delivered to the handler, and the `Start` targets passed to the
pipeline via `on_action` — each in order. -/
structure OrchResult where
  outcome : Option ChainEvent
  handlerEvents : List FromOrchestrator
  pipelineActions : List Nat
deriving Repr, DecidableEq

/-- The loop of `ChainOrchestrator::poll_next_event`, driven by the response
scripts of the pipeline and of the handler (the handler script lists the
`HandlerEvent::Pipeline` targets it is ready to emit; its end stands for
`Poll::Pending`).  `pipelinePhase = true` is the top of the outer loop (the
pipeline is polled first); `pipelinePhase = false` is the inner handler
loop.  Each `Pipeline(target)` handler event triggers
`on_action(Start(target))` and restarts the outer loop. -/
def orch_poll_loop : Bool → List PipelinePollResp → List Nat → OrchResult
  | true, [], handlerScript => orch_poll_loop false [] handlerScript
  | true, p :: pipelineScript, handlerScript =>
    match p with
    | .idle => orch_poll_loop false pipelineScript handlerScript
    | .started _ =>
      { outcome := some .pipelineStarted
        handlerEvents := [.pipelineStarted]
        pipelineActions := [] }
    | .finishedOk _ =>
      { outcome := some .pipelineFinished
        handlerEvents := [.pipelineFinished]
        pipelineActions := [] }
    | .finishedErr _ =>
      { outcome := some .fatalError
        handlerEvents := []
        pipelineActions := [] }
  | false, _, [] => { outcome := none, handlerEvents := [], pipelineActions := [] }
  | false, pipelineScript, target :: handlerScript =>
    let r := orch_poll_loop true pipelineScript handlerScript
    { r with pipelineActions := target :: r.pipelineActions }
termination_by b ps hs => (ps.length + hs.length, if b then 1 else 0)

/-- `ChainOrchestrator::poll_next_event`. -/
def poll_next_event (pipelineScript : List PipelinePollResp)
    (handlerScript : List Nat) : OrchResult :=
  orch_poll_loop true pipelineScript handlerScript

/-! ### The persistence actor (`persistence.rs`) -/

/-- `ExecutedBlock`, reduced to the data the actor reads from it. -/
structure ExecutedBlock where
  number : Nat
  hash : Nat
deriving Repr, DecidableEq

/-- `PersistenceAction` (the one-shot reply senders are not part of the
data). -/
inductive PersistenceAction where
  | saveFinalizedBlocks (blocks : List ExecutedBlock)
  | removeBlocksAbove (blockNumber : Nat)
deriving Repr, DecidableEq

/-- What one iteration of `Persistence::run` does with an action: reply on the
one-shot channel, or abort the actor (`panicked` covers the `todo!` macros and
the `unwrap`s of the source). -/
inductive ActorStepOutcome where
  | panicked
  | emptyBatchError
  | savedReply (hash : Nat)
  | removedReply (blocks : List ExecutedBlock)
deriving Repr, DecidableEq

/-- One iteration of `Persistence::run`, acting on the owned store (a list of
persisted blocks).  `RemoveBlocksAbove` calls `remove_blocks_above`, whose
body is `todo!("implement this")`.  `SaveFinalizedBlocks` with an empty list
hits `todo!("return error or something")`; with a non-empty list it reads the
last block hash and calls `write`, whose body is `todo!("implement this")`,
so the `unwrap` aborts before anything is written or any reply is sent. -/
def persistence_run_action (store : List ExecutedBlock)
    (action : PersistenceAction) : List ExecutedBlock × ActorStepOutcome :=
  match action with
  | .removeBlocksAbove _ => (store, .panicked)
  | .saveFinalizedBlocks blocks =>
    if blocks.isEmpty then (store, .panicked)
    else (store, .panicked)

/-- Outcome of one `PersistenceHandle` call as seen by the caller. -/
inductive HandleOutcome where
  | panicked
  | persistenceUnavailable
  | savedHash (hash : Nat)
  | removedBlocks (blocks : List ExecutedBlock)
deriving Repr, DecidableEq

/-- `PersistenceHandle::save_blocks`: `actorListening` is whether the actor
still holds the receiving end of the channel; `reply` is the value the actor
sends on the one-shot channel before the caller awaits it, if any.  A send to
a disconnected channel hits `.expect("should be able to send")`; an await on a
dropped reply sender hits `.expect("todo: err handling")` — both abort the
caller. -/
def handle_save_blocks (actorListening : Bool) (reply : Option Nat) :
    HandleOutcome :=
  if actorListening then
    match reply with
    | some h => .savedHash h
    | none => .panicked
  else .panicked

/-- `PersistenceHandle::remove_blocks_above`; the same channel discipline as
`handle_save_blocks`. -/
def handle_remove_blocks_above (actorListening : Bool)
    (reply : Option (List ExecutedBlock)) : HandleOutcome :=
  if actorListening then
    match reply with
    | some blocks => .removedBlocks blocks
    | none => .panicked
  else .panicked

/-! ### Association-list lemmas -/

/-! ### Concrete scenario states and invariant definitions -/

/-- The fetcher state of the spec scenario: hashes 1..6 announced with eth68
sizes [L-4, L, 2, 3, 2, 1], nothing buffered. -/
def packScenario : TransactionFetcher :=
  { TransactionFetcher.init with
    unknown_hashes :=
      [(1, (0, LruCache.new MAX_ALTERNATIVE_PEERS_PER_TX)),
       (2, (0, LruCache.new MAX_ALTERNATIVE_PEERS_PER_TX)),
       (3, (0, LruCache.new MAX_ALTERNATIVE_PEERS_PER_TX)),
       (4, (0, LruCache.new MAX_ALTERNATIVE_PEERS_PER_TX)),
       (5, (0, LruCache.new MAX_ALTERNATIVE_PEERS_PER_TX)),
       (6, (0, LruCache.new MAX_ALTERNATIVE_PEERS_PER_TX))]
    eth68_meta :=
      [(1, MAX_FULL_TRANSACTIONS_PACKET_SIZE - 4),
       (2, MAX_FULL_TRANSACTIONS_PACKET_SIZE),
       (3, 2), (4, 3), (5, 2), (6, 1)] }

/-- A fetcher tracking the single fresh hash 1 with eth68 size 5. -/
def retryScenario : TransactionFetcher :=
  { TransactionFetcher.init with
    unknown_hashes := [(1, (0, LruCache.new MAX_ALTERNATIVE_PEERS_PER_TX))]
    eth68_meta := [(1, 5)] }

/-- A session-liveness oracle under which every session is active. -/
def alwaysActive : PeerId → Bool := fun _ => true

/-- The state after two no-fallback `buffer_hashes_for_retry` calls on
hash 1. -/
def retryAfterTwo : TransactionFetcher :=
  buffer_hashes_for_retry (buffer_hashes_for_retry retryScenario [1]) [1]

/-- `retryAfterTwo` with the buffer emptied: the dispatch of the third
request removed the hash from `buffered_hashes` before the third delivery
failure. -/
def retryDropState : TransactionFetcher :=
  { retryAfterTwo with buffered_hashes := LruCache.new MAX_CAPACITY_BUFFERED_HASHES }

/-- The state after the third no-fallback call. -/
def retryAfterThree : TransactionFetcher :=
  buffer_hashes_for_retry retryDropState [1]

/-- A fetcher whose buffered-hash cache holds hash 4 at capacity 1, with hash
4 also tracked in the two co-indexes. -/
def evictScenario : TransactionFetcher :=
  { TransactionFetcher.init with
    buffered_hashes := ⟨1, [4]⟩
    unknown_hashes := [(4, (1, LruCache.new MAX_ALTERNATIVE_PEERS_PER_TX))]
    eth68_meta := [(4, 7)] }

/-- A fetcher with hash 1 in flight (tracked, not buffered) whose fallback set
holds the single peer 11, with room for two more. -/
def filterScenario : TransactionFetcher :=
  { TransactionFetcher.init with
    unknown_hashes := [(1, (0, ⟨3, [11]⟩))] }

/-- A fetcher tracking hash 1 with its retry count already at the limit. -/
def earlyReturnScenario : TransactionFetcher :=
  { TransactionFetcher.init with
    unknown_hashes := [(1, (2, LruCache.new MAX_ALTERNATIVE_PEERS_PER_TX))]
    eth68_meta := [(1, 9)] }

/-- The per-peer in-flight bound on the transaction fetcher. -/
def txActiveInv (s : TransactionFetcher) : Prop :=
  ∀ (p : PeerId) (c : Nat),
    alookup s.active_peers p = some c → c ≤ MAX_CONCURRENT_TX_REQUESTS_PER_PEER

/-- The per-peer in-flight bound on the header/body scheduler, together with
the fact that an idle or unknown peer has no request in flight. -/
def schedInv (s : StateFetcher) : Prop :=
  ∀ p : PeerId,
    inflightCount s p ≤ 1 ∧
    ((alookup s.peers p = some PeerState.idle ∨ alookup s.peers p = none) →
      inflightCount s p = 0)

/-- `schedInv` strengthened with key uniqueness of the peer map. -/
def schedAux (s : StateFetcher) : Prop :=
  (akeys s.peers).Nodup ∧ schedInv s

/-- The transaction-fetcher operation sequence of the C6 witness: one
successfully dispatched request from peer 7. -/
def c6OpsWitness : List FetcherOp := [FetcherOp.request [3] 7 true]

/-- A reachable scheduler state with one idle peer (4) and one queued bodies
request. -/
def c6WitnessState : StateFetcher :=
  { new_connected_peer StateFetcher.init 4 with
    queued_requests :=
      (new_connected_peer StateFetcher.init 4).queued_requests ++
        [DownloadRequest.getBlockBodies [9]] }

theorem alookup_cons {α : Type} (k : Nat) (v : α) (l : List (Nat × α)) (key : Nat) :
    alookup ((k, v) :: l) key = if k = key then some v else alookup l key := rfl

@[simp] theorem alookup_aerase_self {α : Type} (l : List (Nat × α)) (k : Nat) :
    alookup (aerase l k) k = none := by
  induction l with
  | nil => rfl
  | cons e rest ih =>
    obtain ⟨k1, v1⟩ := e
    by_cases h : k1 = k <;> simp [aerase, alookup, h, ih]

theorem alookup_aerase_ne {α : Type} (l : List (Nat × α)) {k key : Nat}
    (h : k ≠ key) : alookup (aerase l key) k = alookup l k := by
  induction l with
  | nil => rfl
  | cons e rest ih =>
    obtain ⟨k1, v1⟩ := e
    by_cases h1 : k1 = key
    · subst h1
      simp [aerase, alookup, Ne.symm h, ih]
    · by_cases h2 : k1 = k <;> simp [aerase, alookup, h1, h2, ih, h]

@[simp] theorem alookup_apromote_self {α : Type} (l : List (Nat × α)) (k : Nat) (v : α) :
    alookup (apromote l k v) k = some v := by
  simp [apromote, alookup]

theorem alookup_apromote_ne {α : Type} (l : List (Nat × α)) {k key : Nat} (v : α)
    (h : k ≠ key) : alookup (apromote l key v) k = alookup l k := by
  simp [apromote, alookup, Ne.symm h, alookup_aerase_ne l h]

theorem alookup_aset_self {α : Type} (l : List (Nat × α)) (k : Nat) (v : α) :
    alookup (aset l k v) k = (alookup l k).map (fun _ => v) := by
  induction l with
  | nil => rfl
  | cons e rest ih =>
    obtain ⟨k1, v1⟩ := e
    by_cases h : k1 = k <;> simp [aset, alookup, h, ih]

theorem alookup_aset_ne {α : Type} (l : List (Nat × α)) {k key : Nat} (v : α)
    (h : k ≠ key) : alookup (aset l key v) k = alookup l k := by
  induction l with
  | nil => rfl
  | cons e rest ih =>
    obtain ⟨k1, v1⟩ := e
    by_cases h1 : k1 = key
    · subst h1
      simp [aset, alookup, Ne.symm h, ih]
    · by_cases h2 : k1 = k <;> simp [aset, alookup, h1, h2, ih, h]

/-! ### Claim C1: orchestrator poll event handling -/

/-- Claim C1.  At every outer iteration of `ChainOrchestrator::poll_next_event`
(and hence in particular at the first pipeline poll of every call, since
`poll_next_event` is the outer loop entered in the pipeline phase): a pipeline
`Started` yield notifies the handler with `PipelineStarted` and returns
`ChainEvent::PipelineStarted`; a `Finished(Ok)` yield notifies the handler
with `PipelineFinished` and returns `ChainEvent::PipelineFinished`; a
`Finished(Err)` yield returns `ChainEvent::FatalError` with no handler
notification and no `on_action` pipeline restart in that call; an `Idle`
yield produces no orchestrator event and control falls through to polling the
handler. -/
theorem orchestrator_poll_events :
    (∀ (ps : List PipelinePollResp) (hs : List Nat),
      poll_next_event ps hs = orch_poll_loop true ps hs) ∧
    (∀ (p : PipelinePollResp) (ps : List PipelinePollResp) (hs : List Nat),
      orch_poll_loop true (p :: ps) hs =
        match p with
        | .started _ =>
          { outcome := some .pipelineStarted
            handlerEvents := [.pipelineStarted]
            pipelineActions := [] }
        | .finishedOk _ =>
          { outcome := some .pipelineFinished
            handlerEvents := [.pipelineFinished]
            pipelineActions := [] }
        | .finishedErr _ =>
          { outcome := some .fatalError
            handlerEvents := []
            pipelineActions := [] }
        | .idle => orch_poll_loop false ps hs) := by
  refine ⟨fun ps hs => rfl, fun p ps hs => ?_⟩
  cases p <;> simp [orch_poll_loop]

/-! ### Claim C2: the concrete eth68 packing scenario -/

/-- Claim C2.  On hashes [1..6] with eth68 sizes [L-4, L, 2, 3, 2, 1] and an
empty buffered-hash cache, `pack_hashes_eth68` keeps exactly [1, 3, 5] in the
request and returns [2, 4, 6] as surplus. -/
theorem pack_hashes_eth68_scenario :
    (pack_hashes_eth68 packScenario [1, 2, 3, 4, 5, 6] 99).2.1 = [1, 3, 5] ∧
    (pack_hashes_eth68 packScenario [1, 2, 3, 4, 5, 6] 99).2.2 = [2, 4, 6] := by
  decide

/-! ### Claim C3: the retry bound -/

/-- Counterexample to claim C3.  After `buffer_hashes_for_retry` has been
called on hash 1 exactly `MAX_REQUEST_RETRIES_PER_TX_HASH` (2) times without a
fallback peer, the hash is still tracked in `unknown_hashes` (with retry count
2) and in `eth68_meta`, and it sits in `buffered_hashes` — it was re-buffered
both times rather than removed.  Moreover, even after the third call finally
drops it, a re-announcement re-inserts it as a fresh hash with retry count 0,
so it does reappear. -/
theorem retry_bound_counterexample :
    (alookup retryAfterTwo.unknown_hashes 1 =
        some (2, LruCache.new MAX_ALTERNATIVE_PEERS_PER_TX) ∧
      alookup retryAfterTwo.eth68_meta 1 = some 5 ∧
      retryAfterTwo.buffered_hashes.containsHash 1 = true) ∧
    (alookup retryAfterThree.unknown_hashes 1 = none ∧
      (filter_unseen_hashes retryAfterThree [1] 77 alwaysActive).2 = [1] ∧
      alookup (filter_unseen_hashes retryAfterThree [1] 77 alwaysActive).1.unknown_hashes 1 =
        some (0, LruCache.new MAX_ALTERNATIVE_PEERS_PER_TX)) := by
  decide

/-- Claim C3 as amended.  A hash is permanently dropped only on the no-fallback
`buffer_hashes` call that already finds its retry count at
`MAX_REQUEST_RETRIES_PER_TX_HASH` — the third no-fallback call overall: that
call removes it from `unknown_hashes` and `eth68_meta` and does not re-buffer
it (so, the hash being in flight and hence not buffered, it is afterwards
absent from all three indexes).  The removal is permanent only while the hash
is not re-announced: a later announcement of an untracked hash re-inserts it
afresh with retry count 0. -/
theorem retry_bound_amended (s : TransactionFetcher) (h : TxHash)
    (r : Nat) (fps : LruCache)
    (hentry : alookup s.unknown_hashes h = some (r, fps))
    (hlim : MAX_REQUEST_RETRIES_PER_TX_HASH ≤ r)
    (hnotbuf : s.buffered_hashes.containsHash h = false) :
    (alookup (buffer_hashes_for_retry s [h]).unknown_hashes h = none ∧
      alookup (buffer_hashes_for_retry s [h]).eth68_meta h = none ∧
      (buffer_hashes_for_retry s [h]).buffered_hashes.containsHash h = false) ∧
    (∀ (s2 : TransactionFetcher) (p : PeerId) (act : PeerId → Bool),
      alookup s2.unknown_hashes h = none →
      (filter_unseen_hashes s2 [h] p act).2 = [h] ∧
      alookup (filter_unseen_hashes s2 [h] p act).1.unknown_hashes h =
        some (0, LruCache.new MAX_ALTERNATIVE_PEERS_PER_TX)) := by
  constructor
  · have hrun : buffer_hashes_for_retry s [h] =
        remove_from_unknown_hashes
          { s with unknown_hashes := apromote s.unknown_hashes h (r, fps) } [h] := by
      simp [buffer_hashes_for_retry, buffer_hashes, buffer_loop, hentry, hlim]
    rw [hrun]
    simp [remove_from_unknown_hashes, apromote, aerase, hnotbuf]
  · intro s2 p act hnone
    simp [filter_unseen_hashes, filter_unseen_loop, hnone, alookup]

/-- Witness for `retry_bound_amended`: hash 1 of `retryDropState` carries
retry count 2 and is not buffered, so the third no-fallback call drops it;
and re-announcing the untracked hash 1 to the fresh fetcher re-tracks it. -/
theorem retry_bound_amended_witness :
    alookup (buffer_hashes_for_retry retryDropState [1]).unknown_hashes 1 = none ∧
    (filter_unseen_hashes TransactionFetcher.init [1] 77 alwaysActive).2 = [1] :=
  ⟨(retry_bound_amended retryDropState 1 2
      (LruCache.new MAX_ALTERNATIVE_PEERS_PER_TX) (by decide) (by decide)
      (by decide)).1.1,
    ((retry_bound_amended retryDropState 1 2
      (LruCache.new MAX_ALTERNATIVE_PEERS_PER_TX) (by decide) (by decide)
      (by decide)).2 TransactionFetcher.init 77 alwaysActive (by decide)).1⟩

/-! ### Claim C4: eviction purges the co-indexes -/

/-- Claim C4.  Whenever the `buffered_hashes` insertion inside
`buffer_hashes` evicts a least-recently-used hash, the state immediately after
that loop iteration step (`buffered_insert_purge`, the exact translation of
the eviction branch) no longer contains the evicted hash in `unknown_hashes`
nor in `eth68_meta`.  The state `s` is universally quantified, so the property
holds at every point of every operation sequence. -/
theorem buffered_eviction_purged (s : TransactionFetcher) (h e : TxHash)
    (hev : (s.buffered_hashes.insertAndGetEvicted h).2.2 = some e) :
    alookup (buffered_insert_purge s h).unknown_hashes e = none ∧
    alookup (buffered_insert_purge s h).eth68_meta e = none := by
  simp [buffered_insert_purge, hev]

/-- Witness for `buffered_eviction_purged`: inserting hash 9 into the full
cache of `evictScenario` evicts hash 4, and hash 4 is gone from both
co-indexes afterwards. -/
theorem buffered_eviction_purged_witness :
    alookup (buffered_insert_purge evictScenario 9).unknown_hashes 4 = none ∧
    alookup (buffered_insert_purge evictScenario 9).eth68_meta 4 = none :=
  buffered_eviction_purged evictScenario 9 4 (by decide)

/-! ### Claim C5: fallback-peer eviction preference -/

/-- Claim C5 refutation.  Hash 1 is in flight with fallback peer 11 whose
session is active (`fun _ => true`), and the fallback set is not even full.
When peer 22 announces the hash, `filter_unseen_hashes` drops the hash from
the announcement (as claimed) but removes the live peer 11 from the fallback
set while registering 22: the source pushes onto `ended_sessions` exactly the
peers for which `is_session_active` holds and then removes them, keeping
dead-session entries instead — the opposite of the claimed (and of the
source comment's) dead-session-first eviction. -/
theorem filter_unseen_evicts_live_fallback :
    (filter_unseen_hashes filterScenario [1] 22 alwaysActive).2 = [] ∧
    alookup (filter_unseen_hashes filterScenario [1] 22 alwaysActive).1.unknown_hashes 1 =
      some (0, ⟨3, [22]⟩) := by
  decide

/-! ### Claim C7: SaveFinalizedBlocks handling -/

/-- Claim C7 evaluation.  `Persistence::run` never produces the claimed
behaviour: on an empty block list the actor aborts at
`todo!("return error or something")` instead of replying with an `EmptyBatch`
error, and on a non-empty list it aborts inside the unimplemented `write`
before any durable write or reply; in both cases the store is untouched and
the reply channel is never fulfilled. -/
theorem persistence_save_finalized_stubbed :
    ∀ (store blocks : List ExecutedBlock),
      persistence_run_action store (PersistenceAction.saveFinalizedBlocks blocks) =
        (store, ActorStepOutcome.panicked) := by
  intro store blocks
  cases blocks <;> rfl

/-! ### Claim C8: handle calls after actor termination -/

/-- Claim C8 evaluation.  With the persistence actor terminated
(`actorListening = false`, the channel disconnected), both
`PersistenceHandle::save_blocks` and `PersistenceHandle::remove_blocks_above`
abort the caller at `.expect("should be able to send")` — they panic instead
of returning the claimed typed `PersistenceUnavailable` error. -/
theorem persistence_handle_panics_after_termination :
    ∀ (replyS : Option Nat) (replyR : Option (List ExecutedBlock)),
      (handle_save_blocks false replyS = HandleOutcome.panicked ∧
        handle_save_blocks false replyS ≠ HandleOutcome.persistenceUnavailable) ∧
      (handle_remove_blocks_above false replyR = HandleOutcome.panicked ∧
        handle_remove_blocks_above false replyR ≠ HandleOutcome.persistenceUnavailable) := by
  intro replyS replyR
  refine ⟨⟨rfl, ?_⟩, ⟨rfl, ?_⟩⟩ <;> simp [handle_save_blocks, handle_remove_blocks_above]

/-! ### Claim C9: download requests are enqueued -/

/-- Claim C9 evaluation.  `StateFetcher::on_download_request` discards every
incoming download request: the state (in particular the pending-request FIFO
`queued_requests`) is returned unchanged and no action is produced, so an
incoming request is never appended to the FIFO and can never be dispatched. -/
theorem download_request_discarded :
    ∀ (s : StateFetcher) (r : DownloadRequest),
      on_download_request s r = (s, none) := by
  intro s r
  cases r <;> rfl

/-! ### Claim C10: early return of buffer_hashes -/

/-- Counterexample to claim C10.  Hash 1 is tracked with its retry count at
the limit; hash 2 is untracked.  Processing [1] alone drops hash 1 from
tracking (its normal processing), but processing [1, 2] — where the untracked
hash 2 triggers the early return — leaves hash 1 tracked: the early return
also skips the end-of-function removal of the earlier retry-exhausted hash,
so the earlier hash is not processed normally. -/
theorem buffer_early_return_counterexample :
    alookup (buffer_hashes_for_retry earlyReturnScenario [1]).unknown_hashes 1 = none ∧
    alookup (buffer_hashes_for_retry earlyReturnScenario [1, 2]).unknown_hashes 1 =
      some (2, LruCache.new MAX_ALTERNATIVE_PEERS_PER_TX) := by
  decide

/-- Claim C10 as amended.  When `buffer_hashes` reaches a hash with no
`unknown_hashes` entry it returns at once with the intermediate state reached
after the earlier hashes: later hashes are left entirely unprocessed, and the
end-of-function drop of the already-collected retry-exhausted earlier hashes
is skipped as well, so earlier hashes receive their per-iteration processing
but a retry-exhausted earlier hash remains tracked. -/
theorem buffer_early_return_amended (s : TransactionFetcher)
    (fallbackPeer : Option PeerId) (h : TxHash) (rest maxRetried : List TxHash)
    (hnone : alookup s.unknown_hashes h = none) :
    buffer_loop fallbackPeer (h :: rest) s maxRetried = s ∧
    buffer_hashes s (h :: rest) fallbackPeer = s := by
  constructor <;> simp [buffer_hashes, buffer_loop, hnone]

/-- Witness for `buffer_early_return_amended` at hash 5, which the initial
fetcher does not track. -/
theorem buffer_early_return_amended_witness :
    buffer_loop none (5 :: [8]) TransactionFetcher.init [3] = TransactionFetcher.init ∧
    buffer_hashes TransactionFetcher.init (5 :: [8]) none = TransactionFetcher.init :=
  buffer_early_return_amended TransactionFetcher.init none 5 [8] [3] (by decide)

/-! ### Claim C6: per-peer concurrency -/

theorem remove_from_unknown_hashes_active (hashes : List TxHash) :
    ∀ s : TransactionFetcher,
      (remove_from_unknown_hashes s hashes).active_peers = s.active_peers := by
  induction hashes with
  | nil => intro s; rfl
  | cons h rest ih => intro s; exact ih _

theorem buffered_insert_purge_active (s : TransactionFetcher) (h : TxHash) :
    (buffered_insert_purge s h).active_peers = s.active_peers := by
  cases hev : (s.buffered_hashes.insertAndGetEvicted h).2.2 <;>
    simp [buffered_insert_purge, hev]

theorem buffer_loop_active (fallbackPeer : Option PeerId) (hashes : List TxHash) :
    ∀ (s : TransactionFetcher) (maxRetried : List TxHash),
      (buffer_loop fallbackPeer hashes s maxRetried).active_peers = s.active_peers := by
  induction hashes with
  | nil => intro s mr; exact remove_from_unknown_hashes_active mr s
  | cons h rest ih =>
    intro s mr
    unfold buffer_loop
    cases halt : alookup s.unknown_hashes h with
    | none => rfl
    | some v =>
      obtain ⟨retries, fps⟩ := v
      cases fallbackPeer with
      | some p => simp [ih, buffered_insert_purge_active]
      | none =>
        by_cases hr : MAX_REQUEST_RETRIES_PER_TX_HASH ≤ retries <;>
          simp [hr, buffered_insert_purge_active, ih]

theorem fill_step_push_active (s : TransactionFetcher) (peerId : PeerId)
    (hashes : List TxHash) (h : TxHash) :
    (fill_step_push s peerId hashes h).1.active_peers = s.active_peers := by
  unfold fill_step_push
  cases alookup s.unknown_hashes h with
  | none => rfl
  | some v =>
    obtain ⟨retries, fps⟩ := v
    dsimp only
    split <;> rfl

theorem fill_loop_active (peerId : PeerId) (buf : List TxHash) :
    ∀ (s : TransactionFetcher) (hashes : List TxHash) (acc : Option Nat),
      (fill_loop peerId buf s hashes acc).1.active_peers = s.active_peers := by
  induction buf with
  | nil => intro s hashes acc; rfl
  | cons h rest ih =>
    intro s hashes acc
    unfold fill_loop
    cases acc with
    | some a =>
      by_cases hfull : MAX_FULL_TRANSACTIONS_PACKET_SIZE ≤ a
      · simp [hfull]
      · cases hm : alookup s.eth68_meta h with
        | some size =>
          simp only [hfull, if_false, hm]
          split <;>
            simp [ih, fill_step_push_active]
        | none =>
          simp [hfull, hm, ih, fill_step_push_active]
    | none =>
      by_cases hlen : GET_POOLED_TRANSACTION_SOFT_LIMIT_NUM_HASHES ≤ hashes.length
      · simp [hlen]
      · simp [hlen, ih, fill_step_push_active]

theorem fill_request_for_peer_active (s : TransactionFetcher) (hashes : List TxHash)
    (peerId : PeerId) (acc : Option Nat) :
    (fill_request_for_peer s hashes peerId acc).1.active_peers = s.active_peers := by
  unfold fill_request_for_peer
  exact fill_loop_active peerId _ s hashes acc

theorem pack_hashes_eth68_active (s : TransactionFetcher) (hashes : List TxHash)
    (peerId : PeerId) :
    (pack_hashes_eth68 s hashes peerId).1.active_peers = s.active_peers := by
  unfold pack_hashes_eth68
  by_cases hacc :
      (pack_retain_eth68 s hashes 0).2.2 < MAX_FULL_TRANSACTIONS_PACKET_SIZE <;>
    simp [hacc, fill_request_for_peer_active]

theorem pack_hashes_eth66_active (s : TransactionFetcher) (hashes : List TxHash)
    (peerId : PeerId) :
    (pack_hashes_eth66 s hashes peerId).1.active_peers = s.active_peers := by
  unfold pack_hashes_eth66
  by_cases hlen :
      hashes.length < GET_POOLED_TRANSACTION_SOFT_LIMIT_NUM_HASHES <;>
    simp [hlen, fill_request_for_peer_active]

theorem pack_hashes_active (s : TransactionFetcher) (hashes : List TxHash)
    (peerId : PeerId) :
    (pack_hashes s hashes peerId).1.active_peers = s.active_peers := by
  unfold pack_hashes
  cases hashes.head? with
  | none => rfl
  | some h =>
    dsimp only
    cases alookup s.eth68_meta h with
    | some size => simp [pack_hashes_eth68_active]
    | none => simp [pack_hashes_eth66_active]

theorem filter_unseen_loop_active (peerId : PeerId) (isSessionActive : PeerId → Bool)
    (hashes : List TxHash) :
    ∀ s : TransactionFetcher,
      (filter_unseen_loop peerId isSessionActive hashes s).1.active_peers =
        s.active_peers := by
  induction hashes with
  | nil => intro s; rfl
  | cons h rest ih =>
    intro s
    unfold filter_unseen_loop
    cases alookup s.unknown_hashes h with
    | none => simp [ih]
    | some v =>
      obtain ⟨retries, backups⟩ := v
      dsimp only
      split <;> simp [ih]

theorem request_active_eq (s : TransactionFetcher) (hashes : List TxHash)
    (peerId : PeerId) (sendOk : Bool) :
    (request_transactions_from_peer s hashes peerId sendOk).1.active_peers =
        s.active_peers ∨
    (request_transactions_from_peer s hashes peerId sendOk).1.active_peers =
        apromote s.active_peers peerId ((alookup s.active_peers peerId).getD 0) ∨
    ((request_transactions_from_peer s hashes peerId sendOk).1.active_peers =
        apromote s.active_peers peerId ((alookup s.active_peers peerId).getD 0 + 1) ∧
      ¬ MAX_CONCURRENT_TX_REQUESTS_PER_PEER ≤ (alookup s.active_peers peerId).getD 0) := by
  unfold request_transactions_from_peer
  by_cases hglobal : MAX_CONCURRENT_TX_REQUESTS ≤ s.active_peers.length
  · left; simp [hglobal]
  · by_cases hcap :
      MAX_CONCURRENT_TX_REQUESTS_PER_PEER ≤ (alookup s.active_peers peerId).getD 0
    · right; left; simp [hglobal, hcap]
    · right; right
      refine ⟨?_, hcap⟩
      cases sendOk <;> simp [hglobal, hcap, remove_from_unknown_hashes_active]

theorem txActiveInv_request (s : TransactionFetcher) (hashes : List TxHash)
    (peerId : PeerId) (sendOk : Bool) (hinv : txActiveInv s) :
    txActiveInv (request_transactions_from_peer s hashes peerId sendOk).1 := by
  rcases request_active_eq s hashes peerId sendOk with heq | heq | ⟨heq, hcap⟩
  · intro q c hq; rw [heq] at hq; exact hinv q c hq
  · intro q c hq
    rw [heq] at hq
    by_cases hqp : q = peerId
    · subst hqp
      rw [alookup_apromote_self] at hq
      cases hq
      cases hval : alookup s.active_peers q with
      | none => simp [hval, MAX_CONCURRENT_TX_REQUESTS_PER_PEER]
      | some c0 => simpa [hval] using hinv q c0 hval
    · rw [alookup_apromote_ne _ _ hqp] at hq
      exact hinv q c hq
  · intro q c hq
    rw [heq] at hq
    by_cases hqp : q = peerId
    · subst hqp
      rw [alookup_apromote_self] at hq
      cases hq
      have h1 : MAX_CONCURRENT_TX_REQUESTS_PER_PEER = 1 := rfl
      omega
    · rw [alookup_apromote_ne _ _ hqp] at hq
      exact hinv q c hq

theorem update_peer_activity_active_eq (s : TransactionFetcher) (peerId : PeerId) :
    (update_peer_activity s peerId).active_peers = s.active_peers ∨
    (update_peer_activity s peerId).active_peers = aerase s.active_peers peerId ∨
    ∃ c0, alookup s.active_peers peerId = some c0 ∧ ¬ c0 ≤ 1 ∧
      (update_peer_activity s peerId).active_peers =
        apromote s.active_peers peerId (c0 - 1) := by
  unfold update_peer_activity
  cases hval : alookup s.active_peers peerId with
  | none => left; rfl
  | some c0 =>
    by_cases hc : c0 ≤ 1
    · right; left; simp [hc]
    · right; right; exact ⟨c0, rfl, hc, by simp [hc]⟩

theorem txActiveInv_update_peer_activity (s : TransactionFetcher) (peerId : PeerId)
    (hinv : txActiveInv s) : txActiveInv (update_peer_activity s peerId) := by
  rcases update_peer_activity_active_eq s peerId with heq | heq | ⟨c0, hval, hc, heq⟩
  · intro q c hq; rw [heq] at hq; exact hinv q c hq
  · intro q c hq
    rw [heq] at hq
    by_cases hqp : q = peerId
    · subst hqp; simp at hq
    · rw [alookup_aerase_ne _ hqp] at hq
      exact hinv q c hq
  · intro q c hq
    rw [heq] at hq
    by_cases hqp : q = peerId
    · subst hqp
      rw [alookup_apromote_self] at hq
      cases hq
      have := hinv q c0 hval
      omega
    · rw [alookup_apromote_ne _ _ hqp] at hq
      exact hinv q c hq

theorem txActiveInv_on_resolved (s : TransactionFetcher) (peerId : PeerId)
    (delivered : List TxHash) (hinv : txActiveInv s) :
    txActiveInv (on_resolved_request s peerId delivered) := by
  unfold on_resolved_request
  cases take_inflight s.inflight_requests peerId with
  | none => exact hinv
  | some v =>
    obtain ⟨requestedHashes, remaining⟩ := v
    dsimp only
    intro q c hq
    rw [buffer_hashes_for_retry, buffer_hashes, buffer_loop_active,
      remove_from_unknown_hashes_active] at hq
    have hinv1 : txActiveInv { s with inflight_requests := remaining } :=
      fun q c hq => hinv q c hq
    exact txActiveInv_update_peer_activity _ peerId hinv1 q c hq

theorem txActiveInv_step (s : TransactionFetcher) (op : FetcherOp)
    (hinv : txActiveInv s) : txActiveInv (applyFetcherOp s op) := by
  cases op with
  | filterUnseen hashes p act =>
    intro q c hq
    rw [applyFetcherOp, filter_unseen_hashes, filter_unseen_loop_active] at hq
    exact hinv q c hq
  | packHashesOp hashes p =>
    intro q c hq
    rw [applyFetcherOp, pack_hashes_active] at hq
    exact hinv q c hq
  | bufferHashesOp hashes fb =>
    intro q c hq
    rw [applyFetcherOp, buffer_hashes, buffer_loop_active] at hq
    exact hinv q c hq
  | request hashes p ok => exact txActiveInv_request s hashes p ok hinv
  | resolved p d => exact txActiveInv_on_resolved s p d hinv
  | fullBroadcast hashes =>
    intro q c hq
    rw [applyFetcherOp, remove_from_unknown_hashes_active] at hq
    exact hinv q c hq

theorem txActiveInv_ops (ops : List FetcherOp) :
    ∀ s : TransactionFetcher, txActiveInv s →
      txActiveInv (ops.foldl applyFetcherOp s) := by
  induction ops with
  | nil => intro s hinv; exact hinv
  | cons op rest ih =>
    intro s hinv
    exact ih _ (txActiveInv_step s op hinv)

theorem aerase_sublist {α : Type} (l : List (Nat × α)) (k : Nat) :
    (aerase l k).Sublist l := by
  induction l with
  | nil => simp [aerase]
  | cons e rest ih =>
    obtain ⟨k1, v1⟩ := e
    by_cases h : k1 = k
    · simp only [aerase, h, if_true]
      exact ih.cons _
    · simp only [aerase, h, if_false]
      exact ih.cons₂ _

theorem akeys_cons {α : Type} (e : Nat × α) (l : List (Nat × α)) :
    akeys (e :: l) = e.1 :: akeys l := rfl

theorem akeys_nodup_aerase {α : Type} (l : List (Nat × α)) (k : Nat)
    (h : (akeys l).Nodup) : (akeys (aerase l k)).Nodup := by
  have hs : List.Sublist (List.map (fun e => e.1) (aerase l k))
      (List.map (fun e => e.1) l) :=
    List.Sublist.map _ (aerase_sublist l k)
  simpa [akeys] using hs.nodup (by simpa [akeys] using h)

theorem not_mem_akeys_aerase {α : Type} (l : List (Nat × α)) (k : Nat) :
    k ∉ akeys (aerase l k) := by
  induction l with
  | nil => simp [aerase, akeys]
  | cons e rest ih =>
    obtain ⟨k1, v1⟩ := e
    by_cases h : k1 = k
    · simpa [aerase, h] using ih
    · intro hmem
      simp only [aerase, h, if_false, akeys_cons] at hmem
      rcases List.mem_cons.1 hmem with h1 | h1
      · exact h h1.symm
      · exact ih h1

theorem akeys_nodup_apromote {α : Type} (l : List (Nat × α)) (k : Nat) (v : α)
    (h : (akeys l).Nodup) : (akeys (apromote l k v)).Nodup := by
  simp only [apromote, akeys, List.map_cons]
  exact List.Nodup.cons (not_mem_akeys_aerase l k) (akeys_nodup_aerase l k h)

theorem akeys_aset {α : Type} (l : List (Nat × α)) (k : Nat) (v : α) :
    akeys (aset l k v) = akeys l := by
  induction l with
  | nil => rfl
  | cons e rest ih =>
    obtain ⟨k1, v1⟩ := e
    by_cases h : k1 = k <;> simp [aset, akeys, h] <;>
      simpa [akeys] using ih

theorem alookup_of_mem_nodup {α : Type} (l : List (Nat × α)) (k : Nat) (v : α)
    (hnodup : (akeys l).Nodup) (hmem : (k, v) ∈ l) : alookup l k = some v := by
  induction l with
  | nil => cases hmem
  | cons e rest ih =>
    obtain ⟨k1, v1⟩ := e
    rcases List.mem_cons.1 hmem with heq | hmem1
    · cases heq
      simp [alookup]
    · have hk1 : k1 ≠ k := by
        intro hk
        subst hk
        exact (List.nodup_cons.1 hnodup).1
          (List.mem_map.2 ⟨(k1, v), hmem1, rfl⟩)
      simp only [alookup, hk1, if_false]
      exact ih (List.nodup_cons.1 hnodup).2 hmem1

theorem next_peer_alookup (s : StateFetcher) (p : PeerId)
    (hnodup : (akeys s.peers).Nodup) (h : next_peer s = some p) :
    alookup s.peers p = some PeerState.idle := by
  unfold next_peer at h
  cases hfind : s.peers.find? (fun e => e.2.is_idle) with
  | none => rw [hfind] at h; cases h
  | some e =>
    rw [hfind] at h
    obtain ⟨q, st⟩ := e
    cases h
    have hmem : (q, st) ∈ s.peers := List.mem_of_find?_eq_some hfind
    have hpred : st.is_idle = true := by
      simpa using List.find?_some hfind
    have hst : st = PeerState.idle := by
      cases st <;> simp [PeerState.is_idle] at hpred ⊢
    subst hst
    exact alookup_of_mem_nodup s.peers q PeerState.idle hnodup hmem

theorem inflightCount_zero (s : StateFetcher) (p : PeerId)
    (hh : alookup s.inflight_headers_requests p = none)
    (hb : alookup s.inflight_bodies_requests p = none) :
    inflightCount s p = 0 := by
  simp [inflightCount, hh, hb]

theorem inflight_bodies_none (s : StateFetcher) (p : PeerId)
    (hle : inflightCount s p ≤ 1)
    (hh : (alookup s.inflight_headers_requests p).isSome) :
    alookup s.inflight_bodies_requests p = none := by
  unfold inflightCount at hle
  cases hb : alookup s.inflight_bodies_requests p with
  | none => rfl
  | some v => rw [hb] at hle; simp [hh] at hle

theorem inflight_headers_none (s : StateFetcher) (p : PeerId)
    (hle : inflightCount s p ≤ 1)
    (hb : (alookup s.inflight_bodies_requests p).isSome) :
    alookup s.inflight_headers_requests p = none := by
  unfold inflightCount at hle
  cases hh : alookup s.inflight_headers_requests p with
  | none => rfl
  | some v => rw [hh] at hle; simp [hb] at hle

theorem schedAux_prepare (s : StateFetcher) (p : PeerId) (req : DownloadRequest)
    (haux : schedAux s)
    (hidle : alookup s.peers p = some PeerState.idle) :
    schedAux (prepare_block_request s p req).1 ∧
    alookup (prepare_block_request s p req).1.peers p = some req.peer_state := by
  obtain ⟨hnodup, hinv⟩ := haux
  have hcount0 : inflightCount s p = 0 := (hinv p).2 (Or.inl hidle)
  have hh0 : alookup s.inflight_headers_requests p = none := by
    unfold inflightCount at hcount0
    cases hh : alookup s.inflight_headers_requests p with
    | none => rfl
    | some v => rw [hh] at hcount0; simp at hcount0
  have hb0 : alookup s.inflight_bodies_requests p = none := by
    unfold inflightCount at hcount0
    cases hb : alookup s.inflight_bodies_requests p with
    | none => rfl
    | some v => rw [hb] at hcount0; simp at hcount0
  cases req with
  | getBlockHeaders r =>
    have hstate : (prepare_block_request s p (DownloadRequest.getBlockHeaders r)).1 =
        { s with
          peers := aset s.peers p PeerState.getBlockHeaders
          inflight_headers_requests := apromote s.inflight_headers_requests p r } := by
      simp [prepare_block_request, hidle, DownloadRequest.peer_state]
    rw [hstate]
    have hpeersp :
        alookup (aset s.peers p PeerState.getBlockHeaders) p =
          some PeerState.getBlockHeaders := by
      rw [alookup_aset_self, hidle]; rfl
    refine ⟨⟨?_, ?_⟩, hpeersp⟩
    · rw [akeys_aset]; exact hnodup
    · intro q
      by_cases hqp : q = p
      · subst hqp
        constructor
        · simp [inflightCount, hb0]
        · intro hcase
          rw [hpeersp] at hcase
          rcases hcase with hcase | hcase <;> cases hcase
      · have e1 : alookup (aset s.peers p PeerState.getBlockHeaders) q =
            alookup s.peers q := alookup_aset_ne _ _ hqp
        have e2 : alookup (apromote s.inflight_headers_requests p r) q =
            alookup s.inflight_headers_requests q := alookup_apromote_ne _ _ hqp
        constructor
        · simpa [inflightCount, e2] using (hinv q).1
        · intro hcase
          rw [e1] at hcase
          simpa [inflightCount, e2] using (hinv q).2 hcase
  | getBlockBodies r =>
    have hstate : (prepare_block_request s p (DownloadRequest.getBlockBodies r)).1 =
        { s with
          peers := aset s.peers p PeerState.getBlockBodies
          inflight_bodies_requests := apromote s.inflight_bodies_requests p r } := by
      simp [prepare_block_request, hidle, DownloadRequest.peer_state]
    rw [hstate]
    have hpeersp :
        alookup (aset s.peers p PeerState.getBlockBodies) p =
          some PeerState.getBlockBodies := by
      rw [alookup_aset_self, hidle]; rfl
    refine ⟨⟨?_, ?_⟩, hpeersp⟩
    · rw [akeys_aset]; exact hnodup
    · intro q
      by_cases hqp : q = p
      · subst hqp
        constructor
        · simp [inflightCount, hh0]
        · intro hcase
          rw [hpeersp] at hcase
          rcases hcase with hcase | hcase <;> cases hcase
      · have e1 : alookup (aset s.peers p PeerState.getBlockBodies) q =
            alookup s.peers q := alookup_aset_ne _ _ hqp
        have e2 : alookup (apromote s.inflight_bodies_requests p r) q =
            alookup s.inflight_bodies_requests q := alookup_apromote_ne _ _ hqp
        constructor
        · simpa [inflightCount, e2] using (hinv q).1
        · intro hcase
          rw [e1] at hcase
          simpa [inflightCount, e2] using (hinv q).2 hcase

theorem schedAux_new_peer (s : StateFetcher) (p : PeerId)
    (haux : schedAux s) (hp : alookup s.peers p = none) :
    schedAux (new_connected_peer s p) := by
  obtain ⟨hnodup, hinv⟩ := haux
  refine ⟨akeys_nodup_apromote _ _ _ hnodup, fun q => ?_⟩
  by_cases hqp : q = p
  · subst hqp
    have hcount : inflightCount s q = 0 := (hinv q).2 (Or.inr hp)
    have hsame : inflightCount (new_connected_peer s q) q = inflightCount s q := rfl
    exact ⟨by rw [hsame, hcount]; omega, fun _ => by rw [hsame, hcount]⟩
  · have e1 : alookup (new_connected_peer s p).peers q = alookup s.peers q :=
      alookup_apromote_ne _ _ hqp
    have hsame : inflightCount (new_connected_peer s p) q = inflightCount s q := rfl
    exact ⟨by rw [hsame]; exact (hinv q).1,
      fun hcase => by rw [hsame]; exact (hinv q).2 (by rwa [e1] at hcase)⟩

theorem schedAux_session_closed (s : StateFetcher) (p : PeerId)
    (haux : schedAux s) : schedAux (on_session_closed s p) := by
  obtain ⟨hnodup, hinv⟩ := haux
  refine ⟨akeys_nodup_aerase _ _ hnodup, fun q => ?_⟩
  by_cases hqp : q = p
  · subst hqp
    have hcount : inflightCount (on_session_closed s q) q = 0 :=
      inflightCount_zero _ _ (alookup_aerase_self _ _) (alookup_aerase_self _ _)
    exact ⟨by rw [hcount]; omega, fun _ => hcount⟩
  · have e1 : alookup (on_session_closed s p).peers q = alookup s.peers q :=
      alookup_aerase_ne _ hqp
    have e2 : alookup (on_session_closed s p).inflight_headers_requests q =
        alookup s.inflight_headers_requests q := alookup_aerase_ne _ hqp
    have e3 : alookup (on_session_closed s p).inflight_bodies_requests q =
        alookup s.inflight_bodies_requests q := alookup_aerase_ne _ hqp
    have hsame : inflightCount (on_session_closed s p) q = inflightCount s q := by
      simp [inflightCount, e2, e3]
    exact ⟨by rw [hsame]; exact (hinv q).1,
      fun hcase => by rw [hsame]; exact (hinv q).2 (by rwa [e1] at hcase)⟩

theorem schedAux_pending_disconnect (s : StateFetcher) (p : PeerId)
    (haux : schedAux s) : schedAux (on_pending_disconnect s p) := by
  obtain ⟨hnodup, hinv⟩ := haux
  unfold on_pending_disconnect
  cases hval : alookup s.peers p with
  | none => exact ⟨hnodup, hinv⟩
  | some st =>
    refine ⟨by dsimp only; rw [akeys_aset]; exact hnodup, fun q => ?_⟩
    have hsame :
        inflightCount { s with peers := aset s.peers p PeerState.closing } q =
          inflightCount s q := rfl
    by_cases hqp : q = p
    · subst hqp
      refine ⟨by rw [hsame]; exact (hinv q).1, fun hcase => ?_⟩
      have : alookup (aset s.peers q PeerState.closing) q =
          some PeerState.closing := by
        rw [alookup_aset_self, hval]; rfl
      rcases hcase with hcase | hcase <;> rw [this] at hcase <;> cases hcase
    · have e1 : alookup (aset s.peers p PeerState.closing) q = alookup s.peers q :=
        alookup_aset_ne _ _ hqp
      exact ⟨by rw [hsame]; exact (hinv q).1,
        fun hcase => by rw [hsame]; exact (hinv q).2 (by rwa [e1] at hcase)⟩

theorem schedAux_poll_action (s : StateFetcher) (haux : schedAux s) :
    schedAux (poll_action s).1 := by
  unfold poll_action
  by_cases hempty : s.queued_requests.isEmpty
  · simpa [hempty] using haux
  · cases hnp : next_peer s with
    | none => simpa [hempty, hnp] using haux
    | some p =>
      cases hq : s.queued_requests with
      | nil => simpa [hempty, hnp, hq] using haux
      | cons req rest =>
        simp only [hempty, if_false, hnp, hq]
        have haux1 : schedAux { s with queued_requests := rest } :=
          ⟨haux.1, fun q => haux.2 q⟩
        have hidle : alookup s.peers p = some PeerState.idle :=
          next_peer_alookup s p haux.1 hnp
        exact (schedAux_prepare { s with queued_requests := rest } p req haux1 hidle).1

theorem schedAux_followup (s : StateFetcher) (p : PeerId)
    (haux : schedAux s)
    (hidle : alookup s.peers p = some PeerState.idle) :
    schedAux (followup_request s p).1 := by
  unfold followup_request
  cases hq : s.queued_requests with
  | nil => exact haux
  | cons req rest =>
    dsimp only
    have haux1 : schedAux { s with queued_requests := rest } :=
      ⟨haux.1, fun q => haux.2 q⟩
    exact (schedAux_prepare { s with queued_requests := rest } p req haux1 hidle).1

theorem schedAux_headers_erase_aset (s : StateFetcher) (p : PeerId)
    (st2 : PeerState) (hnodup : (akeys s.peers).Nodup) (hinv : schedInv s)
    (hbodies : alookup s.inflight_bodies_requests p = none) :
    schedAux
      { s with
        inflight_headers_requests := aerase s.inflight_headers_requests p
        peers := aset s.peers p st2 } := by
  constructor
  · show (akeys (aset s.peers p st2)).Nodup
    rw [akeys_aset]; exact hnodup
  · intro q
    by_cases hqp : q = p
    · subst hqp
      have hc : inflightCount
          { s with
            inflight_headers_requests := aerase s.inflight_headers_requests q
            peers := aset s.peers q st2 } q = 0 :=
        inflightCount_zero _ _ (alookup_aerase_self _ _) hbodies
      exact ⟨by rw [hc]; omega, fun _ => hc⟩
    · have hsame : inflightCount
          { s with
            inflight_headers_requests := aerase s.inflight_headers_requests p
            peers := aset s.peers p st2 } q = inflightCount s q := by
        simp [inflightCount, alookup_aerase_ne _ hqp]
      have e1 : alookup (aset s.peers p st2) q = alookup s.peers q :=
        alookup_aset_ne _ _ hqp
      exact ⟨by rw [hsame]; exact (hinv q).1,
        fun hcase => by rw [hsame]; exact (hinv q).2 (by rwa [e1] at hcase)⟩

theorem schedAux_headers_erase (s : StateFetcher) (p : PeerId)
    (hnodup : (akeys s.peers).Nodup) (hinv : schedInv s)
    (hbodies : alookup s.inflight_bodies_requests p = none) :
    schedAux
      { s with inflight_headers_requests := aerase s.inflight_headers_requests p } := by
  constructor
  · exact hnodup
  · intro q
    by_cases hqp : q = p
    · subst hqp
      have hc : inflightCount
          { s with inflight_headers_requests := aerase s.inflight_headers_requests q } q = 0 :=
        inflightCount_zero _ _ (alookup_aerase_self _ _) hbodies
      exact ⟨by rw [hc]; omega, fun _ => hc⟩
    · have hsame : inflightCount
          { s with inflight_headers_requests := aerase s.inflight_headers_requests p } q =
            inflightCount s q := by
        simp [inflightCount, alookup_aerase_ne _ hqp]
      exact ⟨by rw [hsame]; exact (hinv q).1,
        fun hcase => by rw [hsame]; exact (hinv q).2 hcase⟩

theorem schedAux_bodies_erase_aset (s : StateFetcher) (p : PeerId)
    (st2 : PeerState) (hnodup : (akeys s.peers).Nodup) (hinv : schedInv s)
    (hheaders : alookup s.inflight_headers_requests p = none) :
    schedAux
      { s with
        inflight_bodies_requests := aerase s.inflight_bodies_requests p
        peers := aset s.peers p st2 } := by
  constructor
  · show (akeys (aset s.peers p st2)).Nodup
    rw [akeys_aset]; exact hnodup
  · intro q
    by_cases hqp : q = p
    · subst hqp
      have hc : inflightCount
          { s with
            inflight_bodies_requests := aerase s.inflight_bodies_requests q
            peers := aset s.peers q st2 } q = 0 :=
        inflightCount_zero _ _ hheaders (alookup_aerase_self _ _)
      exact ⟨by rw [hc]; omega, fun _ => hc⟩
    · have hsame : inflightCount
          { s with
            inflight_bodies_requests := aerase s.inflight_bodies_requests p
            peers := aset s.peers p st2 } q = inflightCount s q := by
        simp [inflightCount, alookup_aerase_ne _ hqp]
      have e1 : alookup (aset s.peers p st2) q = alookup s.peers q :=
        alookup_aset_ne _ _ hqp
      exact ⟨by rw [hsame]; exact (hinv q).1,
        fun hcase => by rw [hsame]; exact (hinv q).2 (by rwa [e1] at hcase)⟩

theorem schedAux_bodies_erase (s : StateFetcher) (p : PeerId)
    (hnodup : (akeys s.peers).Nodup) (hinv : schedInv s)
    (hheaders : alookup s.inflight_headers_requests p = none) :
    schedAux
      { s with inflight_bodies_requests := aerase s.inflight_bodies_requests p } := by
  constructor
  · exact hnodup
  · intro q
    by_cases hqp : q = p
    · subst hqp
      have hc : inflightCount
          { s with inflight_bodies_requests := aerase s.inflight_bodies_requests q } q = 0 :=
        inflightCount_zero _ _ hheaders (alookup_aerase_self _ _)
      exact ⟨by rw [hc]; omega, fun _ => hc⟩
    · have hsame : inflightCount
          { s with inflight_bodies_requests := aerase s.inflight_bodies_requests p } q =
            inflightCount s q := by
        simp [inflightCount, alookup_aerase_ne _ hqp]
      exact ⟨by rw [hsame]; exact (hinv q).1,
        fun hcase => by rw [hsame]; exact (hinv q).2 hcase⟩

theorem schedAux_headers_response (s : StateFetcher) (p : PeerId)
    (haux : schedAux s)
    (hin : (alookup s.inflight_headers_requests p).isSome) :
    schedAux (on_block_headers_response s p).1 := by
  obtain ⟨hnodup, hinv⟩ := haux
  have hbodies : alookup s.inflight_bodies_requests p = none :=
    inflight_bodies_none s p (hinv p).1 hin
  unfold on_block_headers_response
  dsimp only
  cases hval : alookup s.peers p with
  | none =>
    exact schedAux_headers_erase s p hnodup hinv hbodies
  | some st =>
    have hset : ∀ st2 : PeerState,
        alookup (aset s.peers p st2) p = some st2 := by
      intro st2
      rw [alookup_aset_self, hval]; rfl
    cases st with
    | closing =>
      simp only [PeerState.on_request_finished]
      exact schedAux_headers_erase_aset s p PeerState.closing hnodup hinv hbodies
    | idle =>
      simp only [PeerState.on_request_finished]
      exact schedAux_followup _ p
        (schedAux_headers_erase_aset s p PeerState.idle hnodup hinv hbodies)
        (hset PeerState.idle)
    | getBlockHeaders =>
      simp only [PeerState.on_request_finished]
      exact schedAux_followup _ p
        (schedAux_headers_erase_aset s p PeerState.idle hnodup hinv hbodies)
        (hset PeerState.idle)
    | getBlockBodies =>
      simp only [PeerState.on_request_finished]
      exact schedAux_followup _ p
        (schedAux_headers_erase_aset s p PeerState.idle hnodup hinv hbodies)
        (hset PeerState.idle)

theorem schedAux_bodies_response (s : StateFetcher) (p : PeerId)
    (haux : schedAux s)
    (hin : (alookup s.inflight_bodies_requests p).isSome) :
    schedAux (on_block_bodies_response s p).1 := by
  obtain ⟨hnodup, hinv⟩ := haux
  have hheaders : alookup s.inflight_headers_requests p = none :=
    inflight_headers_none s p (hinv p).1 hin
  unfold on_block_bodies_response
  dsimp only
  cases hval : alookup s.peers p with
  | none =>
    exact schedAux_bodies_erase s p hnodup hinv hheaders
  | some st =>
    have hset : ∀ st2 : PeerState,
        alookup (aset s.peers p st2) p = some st2 := by
      intro st2
      rw [alookup_aset_self, hval]; rfl
    cases st with
    | closing =>
      simp only [PeerState.on_request_finished]
      exact schedAux_bodies_erase_aset s p PeerState.closing hnodup hinv hheaders
    | idle =>
      simp only [PeerState.on_request_finished]
      exact schedAux_followup _ p
        (schedAux_bodies_erase_aset s p PeerState.idle hnodup hinv hheaders)
        (hset PeerState.idle)
    | getBlockHeaders =>
      simp only [PeerState.on_request_finished]
      exact schedAux_followup _ p
        (schedAux_bodies_erase_aset s p PeerState.idle hnodup hinv hheaders)
        (hset PeerState.idle)
    | getBlockBodies =>
      simp only [PeerState.on_request_finished]
      exact schedAux_followup _ p
        (schedAux_bodies_erase_aset s p PeerState.idle hnodup hinv hheaders)
        (hset PeerState.idle)

theorem schedAux_reach (s : StateFetcher) (h : Reach s) : schedAux s := by
  induction h with
  | init =>
    refine ⟨by simp [StateFetcher.init, akeys], fun p => ?_⟩
    have : inflightCount StateFetcher.init p = 0 := rfl
    exact ⟨by rw [this]; omega, fun _ => this⟩
  | newPeer s p _ hp ih => exact schedAux_new_peer s p ih hp
  | sessionClosed s p _ ih => exact schedAux_session_closed s p ih
  | pendingDisconnect s p _ ih => exact schedAux_pending_disconnect s p ih
  | download s r _ ih => cases r <;> exact ih
  | enqueue s r _ ih => exact ⟨ih.1, fun q => ih.2 q⟩
  | pollAction s _ ih => exact schedAux_poll_action s ih
  | headersResponse s p _ hin ih => exact schedAux_headers_response s p ih hin
  | bodiesResponse s p _ hin ih => exact schedAux_bodies_response s p ih hin

/-- Claim C6.  Per-peer concurrency: (1) after any sequence of transaction
fetcher operations from the initial state, every `active_peers` entry is at
most `MAX_CONCURRENT_TX_REQUESTS_PER_PEER` (1); (2) in every reachable
header/body scheduler state, no peer holds more than one in-flight
header/body request; (3) whenever the scheduler dispatches a queued download
request (non-empty FIFO and an idle peer found), the chosen peer is `Idle`
beforehand and is marked busy with the request kind afterwards. -/
theorem per_peer_concurrency :
    (∀ (ops : List FetcherOp) (p : PeerId) (c : Nat),
        alookup (ops.foldl applyFetcherOp TransactionFetcher.init).active_peers p =
          some c →
        c ≤ MAX_CONCURRENT_TX_REQUESTS_PER_PEER) ∧
    (∀ s : StateFetcher, Reach s → ∀ p : PeerId, inflightCount s p ≤ 1) ∧
    (∀ s : StateFetcher, Reach s →
      ∀ (req : DownloadRequest) (rest : List DownloadRequest) (p : PeerId),
        s.queued_requests = req :: rest → next_peer s = some p →
        alookup s.peers p = some PeerState.idle ∧
        alookup (poll_action s).1.peers p = some req.peer_state ∧
        req.peer_state ≠ PeerState.idle) := by
  refine ⟨?_, ?_, ?_⟩
  · intro ops p c h
    exact txActiveInv_ops ops TransactionFetcher.init (fun q c0 hq => nomatch hq) p c h
  · intro s hr p
    exact ((schedAux_reach s hr).2 p).1
  · intro s hr req rest p hq hnp
    have haux := schedAux_reach s hr
    have hidle := next_peer_alookup s p haux.1 hnp
    have hne : s.queued_requests.isEmpty = false := by rw [hq]; rfl
    refine ⟨hidle, ?_, by cases req <;> simp [DownloadRequest.peer_state]⟩
    have haux1 : schedAux { s with queued_requests := rest } :=
      ⟨haux.1, fun q => haux.2 q⟩
    have hprep :=
      (schedAux_prepare { s with queued_requests := rest } p req haux1 hidle).2
    simpa [poll_action, hne, hnp, hq] using hprep

/-- Witness for `per_peer_concurrency` at concrete inputs: the bound after a
dispatched request of peer 7, the bound at the initial scheduler state, and
the idle-to-busy dispatch of the queued bodies request to peer 4. -/
theorem per_peer_concurrency_witness :
    (1 ≤ MAX_CONCURRENT_TX_REQUESTS_PER_PEER) ∧
    inflightCount StateFetcher.init 2 ≤ 1 ∧
    (alookup c6WitnessState.peers 4 = some PeerState.idle ∧
      alookup (poll_action c6WitnessState).1.peers 4 =
        some (DownloadRequest.getBlockBodies [9]).peer_state ∧
      (DownloadRequest.getBlockBodies [9]).peer_state ≠ PeerState.idle) := by
  refine ⟨?_, ?_, ?_⟩
  · exact per_peer_concurrency.1 c6OpsWitness 7 1 (by decide)
  · exact per_peer_concurrency.2.1 StateFetcher.init Reach.init 2
  · exact per_peer_concurrency.2.2 c6WitnessState
      (Reach.enqueue _ _ (Reach.newPeer _ _ Reach.init (by decide)))
      (DownloadRequest.getBlockBodies [9]) [] 4 (by decide) (by decide)

end Spec2Proof
